import Mathlib

/-!
# Verification of the LiCSBAS loop-closure engine (`LiCSBAS12_loop_closure.py`)

Shallow embedding of the loop-closure consistency engine of
`bin/LiCSBAS12_loop_closure.py`:

* pass-1 / pass-3 scalar loop RMS evaluation and the good/bad-edge
  classification built on it (`main`, lines 367-385 and 609-628);
* reference-area selection (`main`, lines 445-458 and 554-561);
* pass-4 per-(edge,pixel) support-mask accumulation, the secondary
  fault-attribution (disambiguation) stage (`loop_closure_4th`,
  lines 1251-1385), and the nullification driver (`main`, lines 688-700);
* the raster backup/rewrite state machine (`nullify_unw`, lines 1388-1405);
* option parsing of the nullification threshold (lines 172, 217-218);
* local-variable definedness of `main` on the zero-loop path
  (lines 331-339, 342, 454-455, 554-558, 600-606).

Conventions: IEEE doubles are modelled as exact rationals (`ℚ`); NaN is
modelled by `Option` (`none` = NaN); an interferogram (edge) is identified by
a natural number; a raster is a flat row-major `List (Option ℚ)`.
Since `sqrt` is irrational, a scalar RMS value is carried as its *square*
(the mean of squared residuals) and threshold comparisons are made against
the squared threshold; this is an order-isomorphic change for the
nonnegative quantities involved.
-/

/-- `np.pi`, i.e. the IEEE-754 double closest to π, as an exact rational
(`np.pi.as_integer_ratio() == (884279719003555, 281474976710656)`). -/
def npPi : ℚ := 884279719003555 / 281474976710656

/-- The valid (non-NaN) entries of a raster, in raster order
(`loop_ph[~np.isnan(loop_ph)]`). -/
def validVals (l : List (Option ℚ)) : List ℚ := l.filterMap id

/-- Mean of a list of rationals (0 on the empty list; callers guard emptiness
exactly where the source guards the all-NaN case). -/
def listMean (l : List ℚ) : ℚ := l.sum / l.length

/-- `np.nanmean`: mean over the valid entries, NaN (`none`) when there are
none (the source relies on this NaN propagating). -/
def nanmean (l : List (Option ℚ)) : Option ℚ :=
  let vs := validVals l
  if vs.isEmpty then none else some (listMean vs)

/-- `np.nanmedian` over the valid entries of a nonempty list: the middle
element of the sorted values, or the mean of the two middle elements. -/
def listMedian (l : List ℚ) : ℚ :=
  let s := l.mergeSort (· ≤ ·)
  if l.length % 2 = 1 then s.getD (l.length / 2) 0
  else (s.getD (l.length / 2 - 1) 0 + s.getD (l.length / 2) 0) / 2

/-- `np.round` to an integer: IEEE round-half-to-even. -/
def roundHalfEven (q : ℚ) : ℤ :=
  let f := ⌊q⌋
  let r := q - f
  if r < 1/2 then f
  else if r > 1/2 then f + 1
  else if f % 2 = 0 then f else f + 1

/-- The closure phase `unw12 + unw23 - unw13` of a loop, pixelwise; NaN
(`none`) wherever any of the three rasters is NaN
(`loop_ph = unw12 + unw23 - unw13`, line 1088). -/
def loopPh (u12 u23 u13 : List (Option ℚ)) : List (Option ℚ) :=
  (u12.zip (u23.zip u13)).map fun x =>
    match x.1, x.2.1, x.2.2 with
    | some a, some b, some c => some (a + b - c)
    | _, _, _ => none

/-- Outcome of the pass-1 scalar evaluation `loop_closure_1st_wrapper`
(lines 1071-1127): `inf` when every pixel of the loop phase is NaN
(`rms = np.inf`, line 1092), otherwise a finite value (carried squared). -/
inductive Rms1 where
  | val (meanSq : ℚ)
  | inf
deriving DecidableEq, Repr

/-- Pass-1 scalar loop evaluation (lines 1088-1101): all-NaN loops yield the
`inf` sentinel; otherwise the 2π·n bias closest to the median is removed,
optionally (`multi_prime`) the median itself, and the mean of the squared
debiased residual over the valid pixels is returned (the square of the
source's `rms`). -/
def loopClosure1st (multiPrime : Bool) (u12 u23 u13 : List (Option ℚ)) : Rms1 :=
  let ph := validVals (loopPh u12 u23 u13)
  if ph.isEmpty then .inf
  else
    let n2 : ℚ := (roundHalfEven (listMedian ph / (2 * npPi)) : ℚ) * (2 * npPi)
    let ph1 := ph.map (· - n2)
    let ph2 := if multiPrime then ph1.map (· - listMedian ph1) else ph1
    .val (listMean (ph2.map (fun x => x ^ 2)))

/-- The pass-1 comparison `loop_ph_rms_ifg[i] >= loop_thre` (line 376); the
`inf` sentinel satisfies it.  Finite RMS values are carried squared, so for a
nonnegative threshold the comparison is against the squared threshold. -/
def rms1Ge (r : Rms1) (thr : ℚ) : Bool :=
  match r with
  | .inf => true
  | .val ms => decide (thr ^ 2 ≤ ms)

/-- A loop: the indices of its three edges, `(e12, e23, e13)` in the order
the source extracts them from the loop-incidence row (lines 369-373). -/
structure Loop3 where
  e12 : Nat
  e23 : Nat
  e13 : Nat
deriving DecidableEq, Repr

/-- Whether edge `e` is one of the three edges of loop `l`. -/
def Loop3.touches (l : Loop3) (e : Nat) : Bool :=
  e == l.e12 || e == l.e23 || e == l.e13

/-- One step of the pass-1 vote accumulation (lines 376-379). -/
def pass1Step (thr : ℚ) (acc : List Nat × List Nat) (lr : Loop3 × Rms1) :
    List Nat × List Nat :=
  if rms1Ge lr.2 thr then
    (acc.1 ++ [lr.1.e12, lr.1.e23, lr.1.e13], acc.2)
  else
    (acc.1, acc.2 ++ [lr.1.e12, lr.1.e23, lr.1.e13])

/-- Pass-1 vote accumulation (lines 367-379): each loop appends its three
edges to the bad-candidate list when its RMS verdict satisfies
`>= loop_thre`, and to the good list otherwise.  Returns
`(bad_ifg_cand, good_ifg)`. -/
def pass1Lists (ls : List (Loop3 × Rms1)) (thr : ℚ) : List Nat × List Nat :=
  ls.foldl (pass1Step thr) ([], [])

/-- The strict comparison complementary to `rms1Ge`: a finite RMS below the
threshold (`inf` is below nothing). -/
def rms1Lt (r : Rms1) (thr : ℚ) : Bool :=
  match r with
  | .inf => false
  | .val ms => decide (ms < thr ^ 2)

/-- Modelled from the spec: `identify_bad_ifg` lives in `LiCSBAS_loop_lib`,
which is not among the provided sources; per §4.3 of the specification an
edge is definitively bad iff it participates in at least one bad loop and in
no good loop, i.e. the set difference of the bad-candidate list and the good
list (`list(set(bad_ifg_cand) - set(good_ifg))`). -/
def identify_bad_ifg (cand good : List Nat) : List Nat :=
  (cand.filter (fun e => !good.contains e)).dedup

/-- Outcome of the pass-3 scalar evaluation `loop_closure_3rd_wrapper`
(lines 1182-1211): NaN when the loop is skipped or has no valid reference /
pixels, otherwise a finite value (carried squared). -/
inductive Rms3 where
  | val (meanSq : ℚ)
  | nan
deriving DecidableEq, Repr

/-- The reference phase of a raster: `np.nanmean(unw[refy1:refy2, refx1:refx2])`
(lines 1205-1207), with the reference area given as flat pixel indices. -/
def refMean (refIdxs : List Nat) (u : List (Option ℚ)) : Option ℚ :=
  nanmean (refIdxs.map (fun i => u.getD i none))

/-- Pass-3 scalar loop evaluation (lines 1193-1211): loops containing a bad
or no-reference edge return NaN (lines 1197-1202); otherwise the loop phase
is referenced to the `nanmean` over the reference pixels of each raster, and
if any reference mean or the whole loop phase is NaN the result is NaN,
else the mean squared residual (the square of the source's `rms`). -/
def loopClosure3rd (skipBad skipNoref : Bool) (refIdxs : List Nat)
    (u12 u23 u13 : List (Option ℚ)) : Rms3 :=
  if skipBad || skipNoref then .nan
  else
    let r12 := refMean refIdxs u12
    let r23 := refMean refIdxs u23
    let r13 := refMean refIdxs u13
    match r12, r23, r13 with
    | some a, some b, some c =>
        let ph := validVals ((loopPh u12 u23 u13).map (Option.map (· - (a + b - c))))
        if ph.isEmpty then .nan else .val (listMean (ph.map (fun x => x ^ 2)))
    | _, _, _ => .nan

/-- The pass-3 comparison `loop_ph_rms_ifg2[i] >= loop_thre` (line 622),
reached only after the NaN check of line 620: NaN satisfies neither
comparison. -/
def rms3Ge (r : Rms3) (thr : ℚ) : Bool :=
  match r with
  | .nan => false
  | .val ms => decide (thr ^ 2 ≤ ms)

/-- `loop_ph_rms_ifg2[i] < loop_thre` as reached by the `else` of line 624:
true only for finite values below the threshold. -/
def rms3Lt (r : Rms3) (thr : ℚ) : Bool :=
  match r with
  | .nan => false
  | .val ms => decide (ms < thr ^ 2)

/-- One step of the pass-3 vote accumulation (lines 620-625): NaN verdicts
are skipped, `>= loop_thre` verdicts go to the bad-candidate list, the rest
to the good list. -/
def pass3Step (thr : ℚ) (acc : List Nat × List Nat) (lr : Loop3 × Rms3) :
    List Nat × List Nat :=
  match lr.2 with
  | .nan => acc
  | .val ms =>
    if thr ^ 2 ≤ ms then
      (acc.1 ++ [lr.1.e12, lr.1.e23, lr.1.e13], acc.2)
    else
      (acc.1, acc.2 ++ [lr.1.e12, lr.1.e23, lr.1.e13])

/-- Pass-3 vote accumulation (lines 609-625).  Returns
`(bad_ifg_cand2, good_ifg2)`. -/
def pass3Lists (ls : List (Loop3 × Rms3)) (thr : ℚ) : List Nat × List Nat :=
  ls.foldl (pass3Step thr) ([], [])

/-- `ns_loop4ifg`: the number of loops containing edge `e` (the column sum of
`np.abs(Aloop)`, line 337). -/
def nsLoop4ifg (loops : List Loop3) (e : Nat) : Nat :=
  loops.countP (fun l => l.touches e)

/-- The no-loop classification (lines 337-339): the edges touched by zero
loops. -/
def noLoopIfgs (edges : List Nat) (loops : List Loop3) : List Nat :=
  edges.filter (fun e => nsLoop4ifg loops e == 0)

/-- Membership in the three-edge list a loop appends is exactly `touches`. -/
lemma mem_edgeList_iff (l : Loop3) (e : Nat) :
    e ∈ [l.e12, l.e23, l.e13] ↔ l.touches e = true := by
  simp only [Loop3.touches, List.mem_cons, List.not_mem_nil, or_false,
    Bool.or_eq_true, beq_iff_eq]
  tauto

/-- The pass-1 bad-candidate accumulator flattens to the edges of the loops
whose verdict satisfies the threshold. -/
lemma pass1_fold_fst_eq (thr : ℚ) (ls : List (Loop3 × Rms1)) (b g : List Nat) :
    (ls.foldl (pass1Step thr) (b, g)).1 =
      b ++ (ls.filter (fun lr => rms1Ge lr.2 thr)).flatMap
        (fun lr => [lr.1.e12, lr.1.e23, lr.1.e13]) := by
  induction ls generalizing b g with
  | nil => simp
  | cons hd tl ih =>
    rw [List.foldl_cons]
    cases h : rms1Ge hd.2 thr
    · simp [pass1Step, h, ih]
    · simp [pass1Step, h, ih]

/-- On `Rms1` the strict comparison is the boolean complement of the
non-strict one (`inf` counts as `>=` any threshold). -/
lemma rms1Lt_eq_not_ge (r : Rms1) (thr : ℚ) :
    rms1Lt r thr = !rms1Ge r thr := by
  rcases r with ms | _
  · show decide (ms < thr ^ 2) = !decide (thr ^ 2 ≤ ms)
    rw [← decide_not]
    simp [not_le]
  · rfl

/-- The pass-1 good accumulator flattens to the edges of the loops whose
verdict is strictly below the threshold. -/
lemma pass1_fold_snd_eq (thr : ℚ) (ls : List (Loop3 × Rms1)) (b g : List Nat) :
    (ls.foldl (pass1Step thr) (b, g)).2 =
      g ++ (ls.filter (fun lr => rms1Lt lr.2 thr)).flatMap
        (fun lr => [lr.1.e12, lr.1.e23, lr.1.e13]) := by
  induction ls generalizing b g with
  | nil => simp
  | cons hd tl ih =>
    rw [List.foldl_cons]
    cases h : rms1Ge hd.2 thr
    · simp [pass1Step, h, ih, rms1Lt_eq_not_ge]
    · simp [pass1Step, h, ih, rms1Lt_eq_not_ge]

/-- The pass-3 bad-candidate accumulator flattens likewise (NaN skipped). -/
lemma pass3_fold_fst_eq (thr : ℚ) (ls : List (Loop3 × Rms3)) (b g : List Nat) :
    (ls.foldl (pass3Step thr) (b, g)).1 =
      b ++ (ls.filter (fun lr => rms3Ge lr.2 thr)).flatMap
        (fun lr => [lr.1.e12, lr.1.e23, lr.1.e13]) := by
  induction ls generalizing b g with
  | nil => simp
  | cons hd tl ih =>
    rw [List.foldl_cons]
    rcases hv : hd.2 with ms | _
    · by_cases hc : thr ^ 2 ≤ ms
      · rw [show pass3Step thr (b, g) hd = (b ++ [hd.1.e12, hd.1.e23, hd.1.e13], g) by
          simp [pass3Step, hv, hc]]
        rw [ih]
        simp [rms3Ge, hv, hc]
      · rw [show pass3Step thr (b, g) hd = (b, g ++ [hd.1.e12, hd.1.e23, hd.1.e13]) by
          simp [pass3Step, hv, hc]]
        rw [ih]
        simp [rms3Ge, hv, hc]
    · rw [show pass3Step thr (b, g) hd = (b, g) by simp [pass3Step, hv]]
      rw [ih]
      simp [rms3Ge, hv]

/-- The pass-3 good accumulator flattens likewise (NaN skipped). -/
lemma pass3_fold_snd_eq (thr : ℚ) (ls : List (Loop3 × Rms3)) (b g : List Nat) :
    (ls.foldl (pass3Step thr) (b, g)).2 =
      g ++ (ls.filter (fun lr => rms3Lt lr.2 thr)).flatMap
        (fun lr => [lr.1.e12, lr.1.e23, lr.1.e13]) := by
  induction ls generalizing b g with
  | nil => simp
  | cons hd tl ih =>
    rw [List.foldl_cons]
    rcases hv : hd.2 with ms | _
    · by_cases hc : thr ^ 2 ≤ ms
      · rw [show pass3Step thr (b, g) hd = (b ++ [hd.1.e12, hd.1.e23, hd.1.e13], g) by
          simp [pass3Step, hv, hc]]
        rw [ih]
        simp [rms3Lt, hv, not_lt.mpr hc]
      · rw [show pass3Step thr (b, g) hd = (b, g ++ [hd.1.e12, hd.1.e23, hd.1.e13]) by
          simp [pass3Step, hv, hc]]
        rw [ih]
        simp [rms3Lt, hv, lt_of_not_le hc]
    · rw [show pass3Step thr (b, g) hd = (b, g) by simp [pass3Step, hv]]
      rw [ih]
      simp [rms3Lt, hv]

/-- Membership in the spec-modelled `identify_bad_ifg`: in the candidate
list and not in the good list. -/
lemma mem_identify_bad_ifg (cand good : List Nat) (e : Nat) :
    e ∈ identify_bad_ifg cand good ↔ e ∈ cand ∧ e ∉ good := by
  simp [identify_bad_ifg, List.mem_filter, List.mem_dedup]

/-- An edge is on the pass-1 bad-candidate list iff some loop whose verdict
meets the threshold touches it. -/
lemma mem_pass1_bad (ls : List (Loop3 × Rms1)) (thr : ℚ) (e : Nat) :
    e ∈ (pass1Lists ls thr).1 ↔
      ∃ lr ∈ ls, rms1Ge lr.2 thr = true ∧ lr.1.touches e = true := by
  rw [pass1Lists, pass1_fold_fst_eq]
  simp only [List.nil_append, List.mem_flatMap, List.mem_filter, mem_edgeList_iff]
  tauto

/-- An edge is on the pass-1 good list iff some loop whose verdict is below
the threshold touches it. -/
lemma mem_pass1_good (ls : List (Loop3 × Rms1)) (thr : ℚ) (e : Nat) :
    e ∈ (pass1Lists ls thr).2 ↔
      ∃ lr ∈ ls, rms1Lt lr.2 thr = true ∧ lr.1.touches e = true := by
  rw [pass1Lists, pass1_fold_snd_eq]
  simp only [List.nil_append, List.mem_flatMap, List.mem_filter, mem_edgeList_iff]
  tauto

/-- An edge is on the pass-3 bad-candidate list iff some non-NaN loop whose
verdict meets the threshold touches it. -/
lemma mem_pass3_bad (ls : List (Loop3 × Rms3)) (thr : ℚ) (e : Nat) :
    e ∈ (pass3Lists ls thr).1 ↔
      ∃ lr ∈ ls, rms3Ge lr.2 thr = true ∧ lr.1.touches e = true := by
  rw [pass3Lists, pass3_fold_fst_eq]
  simp only [List.nil_append, List.mem_flatMap, List.mem_filter, mem_edgeList_iff]
  tauto

/-- An edge is on the pass-3 good list iff some non-NaN loop whose verdict is
below the threshold touches it. -/
lemma mem_pass3_good (ls : List (Loop3 × Rms3)) (thr : ℚ) (e : Nat) :
    e ∈ (pass3Lists ls thr).2 ↔
      ∃ lr ∈ ls, rms3Lt lr.2 thr = true ∧ lr.1.touches e = true := by
  rw [pass3Lists, pass3_fold_snd_eq]
  simp only [List.nil_append, List.mem_flatMap, List.mem_filter, mem_edgeList_iff]
  tauto

/-- **C1**: the bad-edge classifier, as invoked after pass 1 (lines 376-385)
and after pass 3 (lines 609-628), marks an edge definitively bad iff it is
touched by at least one loop whose RMS verdict satisfies `>= loop_thre` and
by no loop whose verdict is `< loop_thre`; an edge touched by both kinds is
exactly a remaining candidate (on the candidate list but not bad); an edge
touched by zero loops is classified no-loop (lines 337-339).
(`identify_bad_ifg` is modelled from the spec, being outside the provided
sources.) -/
theorem badEdgeClassifier_voting_rule :
    (∀ (ls : List (Loop3 × Rms1)) (thr : ℚ) (e : Nat),
      (e ∈ identify_bad_ifg (pass1Lists ls thr).1 (pass1Lists ls thr).2 ↔
        (∃ lr ∈ ls, rms1Ge lr.2 thr = true ∧ lr.1.touches e = true) ∧
          ¬ ∃ lr ∈ ls, rms1Lt lr.2 thr = true ∧ lr.1.touches e = true) ∧
      ((e ∈ (pass1Lists ls thr).1 ∧
          e ∉ identify_bad_ifg (pass1Lists ls thr).1 (pass1Lists ls thr).2) ↔
        (∃ lr ∈ ls, rms1Ge lr.2 thr = true ∧ lr.1.touches e = true) ∧
          ∃ lr ∈ ls, rms1Lt lr.2 thr = true ∧ lr.1.touches e = true)) ∧
    (∀ (ls : List (Loop3 × Rms3)) (thr : ℚ) (e : Nat),
      (e ∈ identify_bad_ifg (pass3Lists ls thr).1 (pass3Lists ls thr).2 ↔
        (∃ lr ∈ ls, rms3Ge lr.2 thr = true ∧ lr.1.touches e = true) ∧
          ¬ ∃ lr ∈ ls, rms3Lt lr.2 thr = true ∧ lr.1.touches e = true) ∧
      ((e ∈ (pass3Lists ls thr).1 ∧
          e ∉ identify_bad_ifg (pass3Lists ls thr).1 (pass3Lists ls thr).2) ↔
        (∃ lr ∈ ls, rms3Ge lr.2 thr = true ∧ lr.1.touches e = true) ∧
          ∃ lr ∈ ls, rms3Lt lr.2 thr = true ∧ lr.1.touches e = true)) ∧
    (∀ (edges : List Nat) (loops : List Loop3) (e : Nat),
      e ∈ noLoopIfgs edges loops ↔
        e ∈ edges ∧ ∀ l ∈ loops, l.touches e = false) := by
  refine ⟨fun ls thr e => ⟨?_, ?_⟩, fun ls thr e => ⟨?_, ?_⟩, fun edges loops e => ?_⟩
  · rw [mem_identify_bad_ifg, mem_pass1_bad, mem_pass1_good]
  · rw [mem_identify_bad_ifg, mem_pass1_bad, mem_pass1_good]
    constructor
    · rintro ⟨hA, hn⟩
      exact ⟨hA, by_contra fun hB => hn ⟨hA, hB⟩⟩
    · rintro ⟨hA, hB⟩
      exact ⟨hA, fun h => h.2 hB⟩
  · rw [mem_identify_bad_ifg, mem_pass3_bad, mem_pass3_good]
  · rw [mem_identify_bad_ifg, mem_pass3_bad, mem_pass3_good]
    constructor
    · rintro ⟨hA, hn⟩
      exact ⟨hA, by_contra fun hB => hn ⟨hA, hB⟩⟩
    · rintro ⟨hA, hB⟩
      exact ⟨hA, fun h => h.2 hB⟩
  · rw [noLoopIfgs, List.mem_filter]
    simp only [beq_iff_eq, nsLoop4ifg, List.countP_eq_zero]
    constructor
    · rintro ⟨he, hz⟩
      exact ⟨he, fun l hl => by simpa using hz l hl⟩
    · rintro ⟨he, hz⟩
      exact ⟨he, fun l hl => by simpa using hz l hl⟩

/-- `getD` of an all-NaN raster is NaN at every index. -/
lemma getD_none_of_all_none (l : List (Option ℚ)) (h : ∀ x ∈ l, x = none)
    (i : Nat) : l.getD i none = none := by
  rcases hx : l.getD i none with _ | v
  · rfl
  · exfalso
    have hm : some v ∈ l := by
      rw [List.getD_eq_getElem?_getD] at hx
      rcases hg : l[i]? with _ | x
      · rw [hg] at hx; cases hx
      · rw [hg] at hx
        simp at hx
        subst hx
        exact List.getElem?_mem hg
    cases h _ hm

/-- The closure phase of a loop whose first raster is all-NaN is all-NaN. -/
lemma loopPh_all_none (u12 u23 u13 : List (Option ℚ))
    (h : ∀ x ∈ u12, x = none) : validVals (loopPh u12 u23 u13) = [] := by
  rw [validVals, List.filterMap_eq_nil_iff]
  intro x hx
  rw [loopPh, List.mem_map] at hx
  obtain ⟨p, hp, hpx⟩ := hx
  have h1 : p.1 = none := h _ (List.of_mem_zip hp).1
  rw [← hpx, h1]
  rfl

/-- **C5 (counterexample)**: a loop whose three rasters contain no valid
pixel gets the pass-1 sentinel `inf`, and `inf` *does* satisfy the
`>= loop_thre` comparison of line 376 — the loop's three edges are appended
to the pass-1 bad-candidate list, contradicting the claim that the sentinel
is excluded from the comparison in every classifier pass. -/
theorem inapplicableLoop_pass1_cex :
    loopClosure1st false [none, none] [none, none] [none, none] = Rms1.inf ∧
    (pass1Lists
        [(⟨0, 1, 2⟩, loopClosure1st false [none, none] [none, none] [none, none])]
        (3 / 2)).1 = [0, 1, 2] ∧
    (pass1Lists
        [(⟨0, 1, 2⟩, loopClosure1st false [none, none] [none, none] [none, none])]
        (3 / 2)).1 ≠ [] := by
  refine ⟨rfl, rfl, ?_⟩
  decide

/-- **C5 (amended)**: for a loop whose three rasters contain no valid pixel,
pass 1 records the sentinel `inf` and pass 3 the sentinel NaN — never a
finite (in particular never a zero) RMS; the evaluation is total (never
crashes).  In pass 3 the sentinel fails both threshold comparisons, so the
loop contributes its edges to neither list; but in pass 1 the `inf` sentinel
*satisfies* the `>=` comparison, so the loop's edges are appended to the
bad-candidate list. -/
theorem inapplicableLoop_sentinel (mp sb sn : Bool) (thr : ℚ)
    (refIdxs : List Nat) (u12 u23 u13 : List (Option ℚ))
    (h12 : ∀ x ∈ u12, x = none) :
    loopClosure1st mp u12 u23 u13 = Rms1.inf ∧
    (∀ q : ℚ, loopClosure1st mp u12 u23 u13 ≠ Rms1.val q) ∧
    rms1Ge (loopClosure1st mp u12 u23 u13) thr = true ∧
    loopClosure3rd sb sn refIdxs u12 u23 u13 = Rms3.nan ∧
    (∀ q : ℚ, loopClosure3rd sb sn refIdxs u12 u23 u13 ≠ Rms3.val q) ∧
    rms3Ge (loopClosure3rd sb sn refIdxs u12 u23 u13) thr = false ∧
    rms3Lt (loopClosure3rd sb sn refIdxs u12 u23 u13) thr = false := by
  have hph : validVals (loopPh u12 u23 u13) = [] := loopPh_all_none _ _ _ h12
  have h1 : loopClosure1st mp u12 u23 u13 = Rms1.inf := by
    rw [loopClosure1st, hph]
    rfl
  have hr : refMean refIdxs u12 = none := by
    have hv : validVals (refIdxs.map (fun i => u12.getD i none)) = [] := by
      rw [validVals, List.filterMap_eq_nil_iff]
      intro x hx
      rw [List.mem_map] at hx
      obtain ⟨i, _, hix⟩ := hx
      rw [← hix]
      exact getD_none_of_all_none _ h12 i
    simp only [refMean, nanmean, hv]
    rfl
  have h3 : loopClosure3rd sb sn refIdxs u12 u23 u13 = Rms3.nan := by
    rcases sb with _ | _
    · rcases sn with _ | _
      · simp only [loopClosure3rd, Bool.or_self, hr]
        rfl
      · rfl
    · rfl
  refine ⟨h1, ?_, ?_, h3, ?_, ?_, ?_⟩
  · intro q
    rw [h1]
    exact fun h => Rms1.noConfusion h
  · rw [h1]
    rfl
  · intro q
    rw [h3]
    exact fun h => Rms3.noConfusion h
  · rw [h3]
    rfl
  · rw [h3]
    rfl

/-- Witness for `inapplicableLoop_sentinel` at a concrete all-NaN loop. -/
theorem inapplicableLoop_sentinel_witness :
    loopClosure1st true [none] [some 1] [none] = Rms1.inf ∧
    rms1Ge (loopClosure1st true [none] [some 1] [none]) (3 / 2) = true ∧
    loopClosure3rd false false [0] [none] [some 1] [none] = Rms3.nan := by
  have h := inapplicableLoop_sentinel true false false (3 / 2) [0]
    [none] [some 1] [none] (by intro x hx; simpa using hx)
  exact ⟨h.1, h.2.2.1, h.2.2.2.1⟩

/-- A loop as consumed by pass 4 (`loop_closure_4th`): its three edges in the
source's order `(ifgd12, ifgd23, ifgd13)` and its reference-corrected,
2π-debiased closure phase per pixel (the `loop_ph` of line 1294, after the
histogram integer-cycle correction), flattened row-major; `none` = NaN. -/
structure LoopDat where
  e12 : Nat
  e23 : Nat
  e13 : Nat
  resid : List (Option ℚ)
deriving DecidableEq, Repr

/-- Whether edge `e` is one of the three edges of loop `l`. -/
def LoopDat.touches (l : LoopDat) (e : Nat) : Bool :=
  e == l.e12 || e == l.e23 || e == l.e13

/-- The pass-4 skip of loops containing an excluded edge
(`if ifgd12 in bad_ifg_all or ...`, line 1283). -/
def skipLoop (bad : List Nat) (l : LoopDat) : Bool :=
  bad.contains l.e12 || bad.contains l.e23 || bad.contains l.e13

/-- The per-pixel support vote of a loop:
`is_ok = np.abs(loop_ph) < nullify_threshold` (line 1307), taken after
`loop_ph[np.isnan(loop_ph)] = 0` (line 1303), so a NaN pixel votes
`|0| < thr`. -/
def isOkAt (thr : ℚ) (l : LoopDat) (p : Nat) : Bool :=
  decide (|(l.resid.getD p none).getD 0| < thr)

/-- One loop's update of the support mask of edge `e` at pixel `p`
(lines 1310-1319): skipped loops leave it alone; under the aggressive policy
(`treat_as_bad`) each of the loop's edges is ANDed with `is_ok`, under the
gentle policy ORed. -/
def maskStep (agg : Bool) (thr : ℚ) (bad : List Nat) (e p : Nat)
    (b : Bool) (l : LoopDat) : Bool :=
  if skipLoop bad l then b
  else if l.touches e then
    (if agg then b && isOkAt thr l p else b || isOkAt thr l p)
  else b

/-- The first-stage support mask of edge `e` at pixel `p`: the data cube `da`
is created filled with `treat_as_bad` (line 674: `False` for gentle, `True`
for aggressive) and every loop's vote is merged in (lines 1310-1319). -/
def stage1Mask (agg : Bool) (thr : ℚ) (bad : List Nat) (loops : List LoopDat)
    (e p : Nat) : Bool :=
  loops.foldl (maskStep agg thr bad e p) agg

/-- `ns_loop_all` at `(e, p)`: non-skipped touching loops with a valid
(non-NaN) closure phase at `p` (lines 1296-1300). -/
def nsLoopAll (bad : List Nat) (loops : List LoopDat) (e p : Nat) : Nat :=
  (loops.filter (fun l => !skipLoop bad l && l.touches e)).countP
    (fun l => (l.resid.getD p none).isSome)

/-- `ns_loop_bad` at `(e, p)`: non-skipped touching loops voting not-ok
(lines 1324-1326). -/
def nsLoopBad (thr : ℚ) (bad : List Nat) (loops : List LoopDat)
    (e p : Nat) : Nat :=
  (loops.filter (fun l => !skipLoop bad l && l.touches e)).countP
    (fun l => !isOkAt thr l p)

/-- The bad-loop fraction `ratio = ns_loop_bad / ns_loop_all` of an edge at a
pixel, with `ratio[np.isnan(ratio)] = 0` mapping the 0/0 case to 0
(lines 1361-1372).  (For a positive threshold a not-ok vote implies a valid
pixel, so `ns_loop_bad = 0` whenever `ns_loop_all = 0` and no infinite
quotient arises.) -/
def ratioAt (thr : ℚ) (bad : List Nat) (loops : List LoopDat)
    (e p : Nat) : ℚ :=
  let a := nsLoopAll bad loops e p
  if a = 0 then 0 else (nsLoopBad thr bad loops e p : ℚ) / (a : ℚ)

/-- Whether the disambiguation pass over loop `l` (lines 1376-1384)
downgrades edge `e` at pixel `p`: the three edges' bad fractions are stacked,
`np.nanargmax` picks the *first* index attaining the maximum, `max_is_zero`
suppresses the downgrade when all three fractions are 0, and only the picked
edge's mask is ANDed with false. -/
def downgradedBy (thr : ℚ) (bad : List Nat) (loops : List LoopDat)
    (l : LoopDat) (e p : Nat) : Bool :=
  let r1 := ratioAt thr bad loops l.e12 p
  let r2 := ratioAt thr bad loops l.e23 p
  let r3 := ratioAt thr bad loops l.e13 p
  let mx := max r1 (max r2 r3)
  if mx = 0 then false
  else if r1 = mx then e == l.e12
  else if r2 = mx then e == l.e23
  else e == l.e13

/-- The final support mask of edge `e` at pixel `p` after the second
(disambiguation) stage, which iterates over *all* loops and ANDs in the
negated downgrade picks (lines 1355-1384). -/
def finalMask (agg : Bool) (thr : ℚ) (bad : List Nat) (loops : List LoopDat)
    (e p : Nat) : Bool :=
  stage1Mask agg thr bad loops e p &&
    !(loops.any (fun l => downgradedBy thr bad loops l e p))

/-- Number of unsupported pixels of a mask over `P` pixels
(`np.multiply(np.logical_not(mask), 1)` summed, line 699). -/
def unsupCount (P : Nat) (mask : Nat → Bool) : Nat :=
  (List.range P).countP (fun p => !mask p)

/-- The guard `if not np.min(mask) and np.max(mask)` (line 698): the mask
holds both an unsupported and a supported pixel. -/
def isMixed (P : Nat) (mask : Nat → Bool) : Bool :=
  (List.range P).any (fun p => !mask p) && (List.range P).any (fun p => mask p)

/-- The final mask of an edge as a function of the pixel. -/
def edgeMask (agg : Bool) (thr : ℚ) (bad : List Nat) (loops : List LoopDat)
    (e : Nat) : Nat → Bool :=
  fun p => finalMask agg thr bad loops e p

/-- Total number of (edge, pixel) entries nullified by the driver loop of
lines 693-700: each edge whose final mask is mixed contributes its
unsupported pixels; uniform edges are skipped. -/
def nullifyTotal (agg : Bool) (thr : ℚ) (bad : List Nat)
    (loops : List LoopDat) (edges : List Nat) (P : Nat) : Nat :=
  edges.foldl
    (fun acc e =>
      if isMixed P (edgeMask agg thr bad loops e) then
        acc + unsupCount P (edgeMask agg thr bad loops e)
      else acc)
    0

/-- The gentle accumulation from any start value is an OR over the relevant
loops' votes. -/
lemma gentle_fold_eq (thr : ℚ) (bad : List Nat) (e p : Nat)
    (loops : List LoopDat) (b : Bool) :
    loops.foldl (maskStep false thr bad e p) b =
      (b || loops.any (fun l => !skipLoop bad l && l.touches e && isOkAt thr l p)) := by
  induction loops generalizing b with
  | nil => simp
  | cons hd tl ih =>
    rw [List.foldl_cons, List.any_cons, ih]
    rcases hs : skipLoop bad hd with _ | _
    · rcases ht : hd.touches e with _ | _
      · simp [maskStep, hs, ht]
      · rcases ho : isOkAt thr hd p with _ | _
        · simp [maskStep, hs, ht, ho]
        · simp [maskStep, hs, ht, ho]
    · simp [maskStep, hs]

/-- The aggressive accumulation from any start value is an AND over the
relevant loops' votes. -/
lemma aggro_fold_eq (thr : ℚ) (bad : List Nat) (e p : Nat)
    (loops : List LoopDat) (b : Bool) :
    loops.foldl (maskStep true thr bad e p) b =
      (b && loops.all
        (fun l => !skipLoop bad l && l.touches e → isOkAt thr l p)) := by
  induction loops generalizing b with
  | nil => simp
  | cons hd tl ih =>
    rw [List.foldl_cons, List.all_cons, ih]
    rcases hs : skipLoop bad hd with _ | _
    · rcases ht : hd.touches e with _ | _
      · simp [maskStep, hs, ht]
      · rcases ho : isOkAt thr hd p with _ | _
        · simp [maskStep, hs, ht, ho]
        · simp [maskStep, hs, ht, ho]
    · simp [maskStep, hs]

/-- **C3 (counterexample)**: with no loop touching the pixel the support
mask keeps its initial value, and the code's initialisation
(`np.full(..., treat_as_bad)`, line 674) is `False` = unsupported for the
gentle (default) policy and `True` = supported for the aggressive policy —
the opposite of the claim, which has the gentle mask start "supported" and
the aggressive mask start "unsupported". -/
theorem supportMask_start_cex :
    ¬ (stage1Mask false 1 [] [] 0 0 = true ∧ stage1Mask true 1 [] [] 0 0 = false) ∧
    stage1Mask false 1 [] [] 0 0 = false ∧ stage1Mask true 1 [] [] 0 0 = true := by
  decide

/-- **C3 (amended)**: under the gentle (default) policy the support mask of
`(e, p)` starts *unsupported* (`treat_as_bad = False`) and ends supported iff
at least one non-skipped loop touching the edge has `|debiased residual| <
threshold` at `p` (one clean loop keeps the pixel; equivalently it ends
unsupported iff every touching loop fails the test or none touches it);
under the aggressive policy it starts *supported* (`treat_as_bad = True`)
and ends supported iff every non-skipped touching loop passes the test. -/
theorem supportMask_policy_semantics (thr : ℚ) (bad : List Nat)
    (loops : List LoopDat) (e p : Nat) :
    (stage1Mask false thr bad [] e p = false ∧
      stage1Mask true thr bad [] e p = true) ∧
    (stage1Mask false thr bad loops e p = true ↔
      ∃ l ∈ loops, skipLoop bad l = false ∧ l.touches e = true ∧
        isOkAt thr l p = true) ∧
    (stage1Mask true thr bad loops e p = true ↔
      ∀ l ∈ loops, skipLoop bad l = false → l.touches e = true →
        isOkAt thr l p = true) := by
  refine ⟨⟨rfl, rfl⟩, ?_, ?_⟩
  · rw [stage1Mask, gentle_fold_eq]
    simp only [Bool.false_or, List.any_eq_true, Bool.and_eq_true,
      Bool.not_eq_true']
    constructor
    · rintro ⟨l, hl, ⟨hs, ht⟩, ho⟩
      exact ⟨l, hl, hs, ht, ho⟩
    · rintro ⟨l, hl, hs, ht, ho⟩
      exact ⟨l, hl, ⟨hs, ht⟩, ho⟩
  · rw [stage1Mask, aggro_fold_eq]
    simp only [Bool.true_and, List.all_eq_true]
    constructor
    · intro h l hl hs ht
      have := h l hl
      rw [hs, ht] at this
      simpa using this
    · intro h l hl
      rcases hs : skipLoop bad l with _ | _
      · rcases ht : l.touches e with _ | _
        · simp
        · simpa using h l hl hs ht
      · simp

/-- Case analysis of the disambiguation pick: an edge is downgraded iff the
maximum fraction is nonzero and the edge is the first of
`(e12, e23, e13)` attaining it. -/
lemma downgradedBy_spec (thr : ℚ) (bad : List Nat) (loops : List LoopDat)
    (l : LoopDat) (e p : Nat) :
    downgradedBy thr bad loops l e p = true ↔
      (max (ratioAt thr bad loops l.e12 p)
          (max (ratioAt thr bad loops l.e23 p)
            (ratioAt thr bad loops l.e13 p)) ≠ 0 ∧
        ((ratioAt thr bad loops l.e12 p =
            max (ratioAt thr bad loops l.e12 p)
              (max (ratioAt thr bad loops l.e23 p)
                (ratioAt thr bad loops l.e13 p)) ∧ e = l.e12) ∨
         (ratioAt thr bad loops l.e12 p ≠
            max (ratioAt thr bad loops l.e12 p)
              (max (ratioAt thr bad loops l.e23 p)
                (ratioAt thr bad loops l.e13 p)) ∧
          ratioAt thr bad loops l.e23 p =
            max (ratioAt thr bad loops l.e12 p)
              (max (ratioAt thr bad loops l.e23 p)
                (ratioAt thr bad loops l.e13 p)) ∧ e = l.e23) ∨
         (ratioAt thr bad loops l.e12 p ≠
            max (ratioAt thr bad loops l.e12 p)
              (max (ratioAt thr bad loops l.e23 p)
                (ratioAt thr bad loops l.e13 p)) ∧
          ratioAt thr bad loops l.e23 p ≠
            max (ratioAt thr bad loops l.e12 p)
              (max (ratioAt thr bad loops l.e23 p)
                (ratioAt thr bad loops l.e13 p)) ∧ e = l.e13))) := by
  rw [downgradedBy]
  split_ifs with h0 h1 h2
  · simp [h0]
  · simp only [beq_iff_eq]
    tauto
  · simp only [beq_iff_eq]
    tauto
  · simp only [beq_iff_eq]
    tauto

/-- **C4 (counterexample)**: in a single all-bad loop the three edges' bad
fractions all equal 1 (a tie of all three for the maximum), yet the
disambiguation step *does* downgrade an edge — the first one, `e12` —
contradicting the claim that a tie of two or more leaves all edges
unresolved. -/
theorem disamb_tie_cex :
    ratioAt 1 [] [⟨0, 1, 2, [some 2]⟩] 0 0 =
        ratioAt 1 [] [⟨0, 1, 2, [some 2]⟩] 1 0 ∧
    ratioAt 1 [] [⟨0, 1, 2, [some 2]⟩] 1 0 =
        ratioAt 1 [] [⟨0, 1, 2, [some 2]⟩] 2 0 ∧
    ratioAt 1 [] [⟨0, 1, 2, [some 2]⟩] 0 0 ≠ 0 ∧
    downgradedBy 1 [] [⟨0, 1, 2, [some 2]⟩] ⟨0, 1, 2, [some 2]⟩ 0 0 = true := by
  have hr : ∀ e, e = 0 ∨ e = 1 ∨ e = 2 →
      ratioAt 1 [] [⟨0, 1, 2, [some 2]⟩] e 0 = 1 := by
    rintro e (rfl | rfl | rfl) <;>
      norm_num [ratioAt, nsLoopAll, nsLoopBad, skipLoop, LoopDat.touches,
        isOkAt, List.filter, List.countP, List.countP.go, abs]
  refine ⟨?_, ?_, ?_, ?_⟩
  · rw [hr 0 (by tauto), hr 1 (by tauto)]
  · rw [hr 1 (by tauto), hr 2 (by tauto)]
  · rw [hr 0 (by tauto)]
    norm_num
  · rw [downgradedBy]
    simp only [hr 0 (by tauto), hr 1 (by tauto), hr 2 (by tauto)]
    norm_num

/-- **C4 (amended)**: per loop and pixel, when all three bad fractions are
zero no mask is changed; otherwise exactly one edge is downgraded — the
*first* edge in the loop's order `(e12, e23, e13)` attaining the maximum
fraction (`np.nanargmax` returns the first index), ties included — and any
downgraded edge attains the maximum. -/
theorem disamb_attribution (thr : ℚ) (bad : List Nat) (loops : List LoopDat)
    (l : LoopDat) (p : Nat) :
    ((ratioAt thr bad loops l.e12 p = 0 ∧ ratioAt thr bad loops l.e23 p = 0 ∧
        ratioAt thr bad loops l.e13 p = 0) →
      ∀ e, downgradedBy thr bad loops l e p = false) ∧
    (∀ e e', downgradedBy thr bad loops l e p = true →
      downgradedBy thr bad loops l e' p = true → e = e') ∧
    (∀ e, downgradedBy thr bad loops l e p = true →
      ratioAt thr bad loops e p =
        max (ratioAt thr bad loops l.e12 p)
          (max (ratioAt thr bad loops l.e23 p)
            (ratioAt thr bad loops l.e13 p))) ∧
    (max (ratioAt thr bad loops l.e12 p)
        (max (ratioAt thr bad loops l.e23 p)
          (ratioAt thr bad loops l.e13 p)) ≠ 0 →
      ∃ e, downgradedBy thr bad loops l e p = true ∧
        ratioAt thr bad loops e p =
          max (ratioAt thr bad loops l.e12 p)
            (max (ratioAt thr bad loops l.e23 p)
              (ratioAt thr bad loops l.e13 p))) := by
  have hch := max_choice (ratioAt thr bad loops l.e12 p)
    (max (ratioAt thr bad loops l.e23 p) (ratioAt thr bad loops l.e13 p))
  have hch' := max_choice (ratioAt thr bad loops l.e23 p)
    (ratioAt thr bad loops l.e13 p)
  have hlast : ratioAt thr bad loops l.e12 p ≠
        max (ratioAt thr bad loops l.e12 p)
          (max (ratioAt thr bad loops l.e23 p)
            (ratioAt thr bad loops l.e13 p)) →
      ratioAt thr bad loops l.e23 p ≠
        max (ratioAt thr bad loops l.e12 p)
          (max (ratioAt thr bad loops l.e23 p)
            (ratioAt thr bad loops l.e13 p)) →
      ratioAt thr bad loops l.e13 p =
        max (ratioAt thr bad loops l.e12 p)
          (max (ratioAt thr bad loops l.e23 p)
            (ratioAt thr bad loops l.e13 p)) := by
    intro hn1 hn2
    rcases hch with hc1 | hc1
    · exact absurd hc1.symm hn1
    · rcases hch' with hc2 | hc2
      · exact absurd (hc1.trans hc2).symm hn2
      · exact (hc1.trans hc2).symm
  refine ⟨?_, ?_, ?_, ?_⟩
  · rintro ⟨h1, h2, h3⟩ e
    rw [downgradedBy]
    simp [h1, h2, h3]
  · intro e e' he he'
    rw [downgradedBy_spec] at he he'
    obtain ⟨_, hc⟩ := he
    obtain ⟨_, hc'⟩ := he'
    rcases hc with ⟨hq1, rfl⟩ | ⟨hn1, hq2, rfl⟩ | ⟨hn1, hn2, rfl⟩
    · rcases hc' with ⟨hq1', rfl⟩ | ⟨hn1', hq2', rfl⟩ | ⟨hn1', hn2', rfl⟩
      · rfl
      · exact absurd hq1 hn1'
      · exact absurd hq1 hn1'
    · rcases hc' with ⟨hq1', rfl⟩ | ⟨hn1', hq2', rfl⟩ | ⟨hn1', hn2', rfl⟩
      · exact absurd hq1' hn1
      · rfl
      · exact absurd hq2 hn2'
    · rcases hc' with ⟨hq1', rfl⟩ | ⟨hn1', hq2', rfl⟩ | ⟨hn1', hn2', rfl⟩
      · exact absurd hq1' hn1
      · exact absurd hq2' hn2
      · rfl
  · intro e he
    rw [downgradedBy_spec] at he
    obtain ⟨hmx, hc⟩ := he
    rcases hc with ⟨hq, rfl⟩ | ⟨hn, hq, rfl⟩ | ⟨hn, hn2, rfl⟩
    · exact hq
    · exact hq
    · exact hlast hn hn2
  · intro hmx
    by_cases h1 : ratioAt thr bad loops l.e12 p =
        max (ratioAt thr bad loops l.e12 p)
          (max (ratioAt thr bad loops l.e23 p) (ratioAt thr bad loops l.e13 p))
    · exact ⟨l.e12, (downgradedBy_spec thr bad loops l l.e12 p).mpr
        ⟨hmx, Or.inl ⟨h1, rfl⟩⟩, h1⟩
    · by_cases h2 : ratioAt thr bad loops l.e23 p =
          max (ratioAt thr bad loops l.e12 p)
            (max (ratioAt thr bad loops l.e23 p) (ratioAt thr bad loops l.e13 p))
      · exact ⟨l.e23, (downgradedBy_spec thr bad loops l l.e23 p).mpr
          ⟨hmx, Or.inr (Or.inl ⟨h1, h2, rfl⟩)⟩, h2⟩
      · exact ⟨l.e13, (downgradedBy_spec thr bad loops l l.e13 p).mpr
          ⟨hmx, Or.inr (Or.inr ⟨h1, h2, rfl⟩)⟩, hlast h1 h2⟩

/-- The K4 network used below: epochs 0-3, edges 0=(0,1), 1=(0,2), 2=(0,3),
3=(1,2), 4=(1,3), 5=(2,3); its four triangle loops with concrete debiased
residuals (threshold 1: residual 0 = clean vote, 2 = bad vote; at pixel 0
only loop (1,5,2) is bad, at pixel 1 loops (1,5,2) and (3,5,4) are bad). -/
def c7loops : List LoopDat :=
  [⟨0, 3, 1, [some 0, some 0]⟩, ⟨0, 4, 2, [some 0, some 0]⟩,
   ⟨1, 5, 2, [some 2, some 2]⟩, ⟨3, 5, 4, [some 0, some 2]⟩]

/-- The bad-loop fractions of the six edges of `c7loops` at its two pixels. -/
lemma c7_ratio_lit :
    ratioAt 1 [] [⟨0, 3, 1, [some 0, some 0]⟩, ⟨0, 4, 2, [some 0, some 0]⟩,
      ⟨1, 5, 2, [some 2, some 2]⟩, ⟨3, 5, 4, [some 0, some 2]⟩] 0 0 = 0 ∧
    ratioAt 1 [] [⟨0, 3, 1, [some 0, some 0]⟩, ⟨0, 4, 2, [some 0, some 0]⟩,
      ⟨1, 5, 2, [some 2, some 2]⟩, ⟨3, 5, 4, [some 0, some 2]⟩] 1 0 = 1/2 ∧
    ratioAt 1 [] [⟨0, 3, 1, [some 0, some 0]⟩, ⟨0, 4, 2, [some 0, some 0]⟩,
      ⟨1, 5, 2, [some 2, some 2]⟩, ⟨3, 5, 4, [some 0, some 2]⟩] 2 0 = 1/2 ∧
    ratioAt 1 [] [⟨0, 3, 1, [some 0, some 0]⟩, ⟨0, 4, 2, [some 0, some 0]⟩,
      ⟨1, 5, 2, [some 2, some 2]⟩, ⟨3, 5, 4, [some 0, some 2]⟩] 3 0 = 0 ∧
    ratioAt 1 [] [⟨0, 3, 1, [some 0, some 0]⟩, ⟨0, 4, 2, [some 0, some 0]⟩,
      ⟨1, 5, 2, [some 2, some 2]⟩, ⟨3, 5, 4, [some 0, some 2]⟩] 4 0 = 0 ∧
    ratioAt 1 [] [⟨0, 3, 1, [some 0, some 0]⟩, ⟨0, 4, 2, [some 0, some 0]⟩,
      ⟨1, 5, 2, [some 2, some 2]⟩, ⟨3, 5, 4, [some 0, some 2]⟩] 5 0 = 1/2 ∧
    ratioAt 1 [] [⟨0, 3, 1, [some 0, some 0]⟩, ⟨0, 4, 2, [some 0, some 0]⟩,
      ⟨1, 5, 2, [some 2, some 2]⟩, ⟨3, 5, 4, [some 0, some 2]⟩] 0 1 = 0 ∧
    ratioAt 1 [] [⟨0, 3, 1, [some 0, some 0]⟩, ⟨0, 4, 2, [some 0, some 0]⟩,
      ⟨1, 5, 2, [some 2, some 2]⟩, ⟨3, 5, 4, [some 0, some 2]⟩] 1 1 = 1/2 ∧
    ratioAt 1 [] [⟨0, 3, 1, [some 0, some 0]⟩, ⟨0, 4, 2, [some 0, some 0]⟩,
      ⟨1, 5, 2, [some 2, some 2]⟩, ⟨3, 5, 4, [some 0, some 2]⟩] 2 1 = 1/2 ∧
    ratioAt 1 [] [⟨0, 3, 1, [some 0, some 0]⟩, ⟨0, 4, 2, [some 0, some 0]⟩,
      ⟨1, 5, 2, [some 2, some 2]⟩, ⟨3, 5, 4, [some 0, some 2]⟩] 3 1 = 1/2 ∧
    ratioAt 1 [] [⟨0, 3, 1, [some 0, some 0]⟩, ⟨0, 4, 2, [some 0, some 0]⟩,
      ⟨1, 5, 2, [some 2, some 2]⟩, ⟨3, 5, 4, [some 0, some 2]⟩] 4 1 = 1/2 ∧
    ratioAt 1 [] [⟨0, 3, 1, [some 0, some 0]⟩, ⟨0, 4, 2, [some 0, some 0]⟩,
      ⟨1, 5, 2, [some 2, some 2]⟩, ⟨3, 5, 4, [some 0, some 2]⟩] 5 1 = 1 := by
  refine ⟨?_, ?_, ?_, ?_, ?_, ?_, ?_, ?_, ?_, ?_, ?_, ?_⟩ <;>
    norm_num [ratioAt, nsLoopAll, nsLoopBad, skipLoop,
      LoopDat.touches, isOkAt, List.filter, List.countP, List.countP.go, abs]

set_option maxHeartbeats 1000000 in
/-- **C7 (counterexample)**: on the K4 instance the gentle policy nullifies
4 (edge, pixel) entries but the aggressive policy only 2: edges 1, 2 and 5
are uniformly unsupported under the aggressive policy, so the mixed-mask
guard of line 698 skips them and they contribute nothing, while under the
gentle policy edges 1 and 2 stay mixed and are nullified.  The claimed
inequality gentle ≤ aggressive fails. -/
theorem nullify_policy_count_cex :
    nullifyTotal false 1 [] c7loops [0, 1, 2, 3, 4, 5] 2 = 4 ∧
    nullifyTotal true 1 [] c7loops [0, 1, 2, 3, 4, 5] 2 = 2 ∧
    ¬ nullifyTotal false 1 [] c7loops [0, 1, 2, 3, 4, 5] 2 ≤
        nullifyTotal true 1 [] c7loops [0, 1, 2, 3, 4, 5] 2 := by
  obtain ⟨h1, h2, h3, h4, h5, h6, h7, h8, h9, h10, h11, h12⟩ := c7_ratio_lit
  have hg : nullifyTotal false 1 [] c7loops [0, 1, 2, 3, 4, 5] 2 = 4 := by
    norm_num [nullifyTotal, c7loops, isMixed, unsupCount, edgeMask, finalMask,
      stage1Mask, maskStep, downgradedBy, skipLoop, LoopDat.touches, isOkAt,
      List.filter, List.countP, List.countP.go, List.range_succ, abs,
      h1, h2, h3, h4, h5, h6, h7, h8, h9, h10, h11, h12]
    decide
  have ha : nullifyTotal true 1 [] c7loops [0, 1, 2, 3, 4, 5] 2 = 2 := by
    norm_num [nullifyTotal, c7loops, isMixed, unsupCount, edgeMask, finalMask,
      stage1Mask, maskStep, downgradedBy, skipLoop, LoopDat.touches, isOkAt,
      List.filter, List.countP, List.countP.go, List.range_succ, abs,
      h1, h2, h3, h4, h5, h6, h7, h8, h9, h10, h11, h12]
    decide
  refine ⟨hg, ha, ?_⟩
  rw [hg, ha]
  decide

/-- **C7 (amended)**: the policy comparison holds pointwise, not in the
nullified-pixel count: for an edge contained in at least one non-skipped
loop, every (edge, pixel) supported under the aggressive policy is supported
under the gentle policy (so gentle marks no more pixels unsupported than
aggressive does); the *count* inequality fails in general because an edge
whose aggressive mask is uniformly unsupported is skipped by the mixed-mask
guard of line 698 and contributes no nullified pixels. -/
theorem nullify_policy_pointwise_mono (thr : ℚ) (bad : List Nat)
    (loops : List LoopDat) (e p : Nat)
    (htouch : ∃ l ∈ loops, skipLoop bad l = false ∧ l.touches e = true)
    (hagg : finalMask true thr bad loops e p = true) :
    finalMask false thr bad loops e p = true := by
  rw [finalMask] at hagg
  simp only [Bool.and_eq_true] at hagg
  rcases hagg with ⟨hs, hd⟩
  have hs' : ∀ l ∈ loops, skipLoop bad l = false → l.touches e = true →
      isOkAt thr l p = true := by
    rw [stage1Mask, aggro_fold_eq] at hs
    simp only [Bool.and_eq_true] at hs
    have := hs.2
    rw [List.all_eq_true] at this
    intro l hl hsk ht
    have h2 := this l hl
    rw [hsk, ht] at h2
    simpa using h2
  obtain ⟨l, hl, hsk, ht⟩ := htouch
  have hok := hs' l hl hsk ht
  have hg : stage1Mask false thr bad loops e p = true := by
    rw [stage1Mask, gentle_fold_eq]
    simp only [Bool.false_or, List.any_eq_true]
    exact ⟨l, hl, by rw [hsk, ht, hok]; rfl⟩
  rw [finalMask, hg, hd]
  rfl

/-- Witness for `nullify_policy_pointwise_mono` on a one-loop instance. -/
theorem nullify_policy_pointwise_mono_witness :
    (∃ l ∈ [(⟨0, 1, 2, [none]⟩ : LoopDat)],
      skipLoop [] l = false ∧ l.touches 0 = true) ∧
    finalMask true 1 [] [(⟨0, 1, 2, [none]⟩ : LoopDat)] 0 0 = true ∧
    finalMask false 1 [] [(⟨0, 1, 2, [none]⟩ : LoopDat)] 0 0 = true :=
  ⟨by decide, by decide,
    nullify_policy_pointwise_mono 1 [] _ 0 0 (by decide) (by decide)⟩

/-- The on-disk files of one edge: the current `.unw` raster and the
optional `.unw.ori` backup slot. -/
structure EdgeFiles where
  unw : List (Option ℚ)
  ori : Option (List (Option ℚ))
deriving DecidableEq, Repr

/-- `unw[mask == False] = np.nan` (line 1404): pixels whose mask entry is
false are overwritten with the no-data sentinel. -/
def applyMask (mask : Nat → Bool) (r : List (Option ℚ)) : List (Option ℚ) :=
  (List.range r.length).map (fun i => if mask i then r.getD i none else none)

/-- `nullify_unw` (lines 1388-1405): when a preserved `.unw.ori` exists it is
read as the authoritative un-nullified source (lines 1392-1393); otherwise,
if backups are enabled (`save_ori_unw`, i.e. `--nullify_skip_backup` absent),
the current raster is first copied verbatim into the backup slot
(lines 1394-1396); the masked raster is then written to `.unw` (line 1405). -/
def nullify_unw (saveOri : Bool) (mask : Nat → Bool) (st : EdgeFiles) :
    EdgeFiles :=
  match st.ori with
  | some o => { st with unw := applyMask mask o }
  | none =>
    if saveOri then
      { unw := applyMask mask st.unw, ori := some st.unw }
    else
      { st with unw := applyMask mask st.unw }

/-- One iteration of the nullification driver (lines 695-700): an edge whose
mask holds both values is nullified and its unsupported pixels counted; any
other edge is left entirely alone. -/
def runNullifyStep (saveOri : Bool) (P : Nat) (maskOf : Nat → Nat → Bool)
    (st : (Nat → EdgeFiles) × Nat) (e : Nat) : (Nat → EdgeFiles) × Nat :=
  if isMixed P (maskOf e) then
    (fun e' => if e' = e then nullify_unw saveOri (maskOf e) (st.1 e')
      else st.1 e',
     st.2 + unsupCount P (maskOf e))
  else st

/-- The nullification driver loop `for ifgd in ifgdates` (lines 695-700),
returning the final per-edge files and the total nullified-pixel count. -/
def runNullify (saveOri : Bool) (P : Nat) (maskOf : Nat → Nat → Bool)
    (edges : List Nat) (files : Nat → EdgeFiles) : (Nat → EdgeFiles) × Nat :=
  edges.foldl (runNullifyStep saveOri P maskOf) (files, 0)

/-- A driver step at an edge with a uniform mask is the identity. -/
lemma runNullifyStep_id (saveOri : Bool) (P : Nat) (maskOf : Nat → Nat → Bool)
    (st : (Nat → EdgeFiles) × Nat) (e : Nat)
    (hm : isMixed P (maskOf e) = false) :
    runNullifyStep saveOri P maskOf st e = st := by
  simp [runNullifyStep, hm]

/-- No driver step touches the files of an edge it does not process. -/
lemma runNullify_slot_unchanged (saveOri : Bool) (P : Nat)
    (maskOf : Nat → Nat → Bool) (edges : List Nat)
    (st : (Nat → EdgeFiles) × Nat) (e : Nat) (he : e ∉ edges) :
    (edges.foldl (runNullifyStep saveOri P maskOf) st).1 e = st.1 e := by
  induction edges generalizing st with
  | nil => rfl
  | cons x xs ih =>
    rw [List.foldl_cons]
    have hxe : e ≠ x := fun h => he (h ▸ List.mem_cons_self x xs)
    rw [ih _ (fun h => he (List.mem_cons_of_mem x h))]
    rw [runNullifyStep]
    split
    · simp [hxe]
    · rfl

/-- Dropping an edge with a uniform mask from the driver's edge list changes
nothing: the corresponding step was the identity. -/
lemma runNullify_drop_uniform (saveOri : Bool) (P : Nat)
    (maskOf : Nat → Nat → Bool) (edges : List Nat)
    (st : (Nat → EdgeFiles) × Nat) (e : Nat)
    (hm : isMixed P (maskOf e) = false) :
    edges.foldl (runNullifyStep saveOri P maskOf) st =
      (edges.filter (fun x => !(x == e))).foldl
        (runNullifyStep saveOri P maskOf) st := by
  induction edges generalizing st with
  | nil => rfl
  | cons x xs ih =>
    rw [List.foldl_cons, List.filter_cons]
    by_cases hx : x = e
    · subst hx
      rw [runNullifyStep_id _ _ _ _ _ hm]
      rw [if_neg (by simp)]
      exact ih st
    · have : (!(x == e)) = true := by simp [hx]
      rw [if_pos this, List.foldl_cons]
      exact ih _

/-- Accumulator-generalised form of `runNullify_once`. -/
lemma runNullify_once_aux (saveOri : Bool) (P : Nat)
    (maskOf : Nat → Nat → Bool) (edges : List Nat) (files : Nat → EdgeFiles)
    (acc : Nat) (e : Nat) (hnd : edges.Nodup) (he : e ∈ edges) :
    (edges.foldl (runNullifyStep saveOri P maskOf) (files, acc)).1 e =
      if isMixed P (maskOf e) then nullify_unw saveOri (maskOf e) (files e)
      else files e := by
  induction edges generalizing files acc with
  | nil => cases he
  | cons x xs ih =>
    rw [List.foldl_cons]
    rcases List.mem_cons.mp he with hex | hex
    · subst hex
      have hnx : e ∉ xs := (List.nodup_cons.mp hnd).1
      by_cases hmix : isMixed P (maskOf e) = true
      · rw [show runNullifyStep saveOri P maskOf (files, acc) e =
            (fun e' => if e' = e then nullify_unw saveOri (maskOf e) (files e')
              else files e', acc + unsupCount P (maskOf e)) from by
          simp [runNullifyStep, hmix]]
        rw [runNullify_slot_unchanged _ _ _ _ _ _ hnx]
        simp [hmix]
      · rw [runNullifyStep_id _ _ _ _ _ (by simpa using hmix)]
        rw [runNullify_slot_unchanged _ _ _ _ _ _ hnx]
        simp [hmix]
    · have hxe : x ≠ e := fun h => (List.nodup_cons.mp hnd).1 (h ▸ hex)
      by_cases hmix : isMixed P (maskOf x) = true
      · rw [show runNullifyStep saveOri P maskOf (files, acc) x =
            (fun e' => if e' = x then nullify_unw saveOri (maskOf x) (files e')
              else files e', acc + unsupCount P (maskOf x)) from by
          simp [runNullifyStep, hmix]]
        rw [ih (fun e' => if e' = x then nullify_unw saveOri (maskOf x) (files e')
          else files e') (acc + unsupCount P (maskOf x))
          (List.nodup_cons.mp hnd).2 hex]
        simp [Ne.symm hxe]
      · rw [runNullifyStep_id _ _ _ _ _ (by simpa using hmix)]
        exact ih files acc (List.nodup_cons.mp hnd).2 hex

/-- In a run over a duplicate-free edge list, the final raster of an edge is
the result of at most one `nullify_unw` application to its initial files:
one when its mask is mixed, none otherwise. -/
lemma runNullify_once (saveOri : Bool) (P : Nat) (maskOf : Nat → Nat → Bool)
    (edges : List Nat) (files : Nat → EdgeFiles) (e : Nat)
    (hnd : edges.Nodup) (he : e ∈ edges) :
    (runNullify saveOri P maskOf edges files).1 e =
      if isMixed P (maskOf e) then nullify_unw saveOri (maskOf e) (files e)
      else files e :=
  runNullify_once_aux saveOri P maskOf edges files 0 e hnd he

/-- The driver never touches the files of an edge whose mask is uniform,
whether or not that edge occurs in the list. -/
lemma runNullify_slot_uniform (saveOri : Bool) (P : Nat)
    (maskOf : Nat → Nat → Bool) (edges : List Nat)
    (st : (Nat → EdgeFiles) × Nat) (e : Nat)
    (hm : isMixed P (maskOf e) = false) :
    (edges.foldl (runNullifyStep saveOri P maskOf) st).1 e = st.1 e := by
  induction edges generalizing st with
  | nil => rfl
  | cons x xs ih =>
    rw [List.foldl_cons]
    by_cases hx : x = e
    · subst hx
      rw [runNullifyStep_id _ _ _ _ _ hm]
      exact ih st
    · rw [ih]
      rw [runNullifyStep]
      split
      · simp [Ne.symm hx]
      · rfl

/-- **C10**: the nullification driver (lines 693-700) rewrites an edge's
raster only when its final support mask holds both a supported and an
unsupported pixel; an edge with a uniform mask keeps its raster (and backup
slot) byte-for-byte and contributes nothing to the nullified-pixel count
(dropping it from the edge list changes neither the files nor the count). -/
theorem nullifier_uniform_frame (agg : Bool) (thr : ℚ) (bad : List Nat)
    (loops : List LoopDat) (saveOri : Bool) (P : Nat) (edges : List Nat)
    (files : Nat → EdgeFiles) (e : Nat)
    (huni : isMixed P (edgeMask agg thr bad loops e) = false) :
    (runNullify saveOri P (edgeMask agg thr bad loops) edges files).1 e =
      files e ∧
    runNullify saveOri P (edgeMask agg thr bad loops) edges files =
      runNullify saveOri P (edgeMask agg thr bad loops)
        (edges.filter (fun x => !(x == e))) files := by
  constructor
  · exact runNullify_slot_uniform saveOri P _ edges (files, 0) e huni
  · exact runNullify_drop_uniform saveOri P _ edges (files, 0) e huni

/-- Witness for `nullifier_uniform_frame`: an edge touched by no loop has a
uniformly unsupported gentle mask and is left alone. -/
theorem nullifier_uniform_frame_witness :
    isMixed 1 (edgeMask false 1 [] [] 0) = false ∧
    (runNullify true 1 (edgeMask false 1 [] []) [0]
        (fun _ => ⟨[some 1], none⟩)).1 0 = ⟨[some 1], none⟩ :=
  ⟨by decide,
    (nullifier_uniform_frame false 1 [] [] true 1 [0]
      (fun _ => ⟨[some 1], none⟩) 0 (by decide)).1⟩

/-- **C8 (counterexample)**: with nullification enabled but the backup
skipped (`--nullify_skip_backup`, `save_ori_unw = False`, lines 215-216),
`nullify_unw` modifies the raster without preserving the original anywhere —
the claim's "if nullification is enabled, the original is preserved
verbatim before the first modifying write" fails on this run mode. -/
theorem nullify_backup_skip_cex :
    (nullify_unw false (fun p => p == 0) ⟨[some 1, some 1], none⟩).ori =
      none ∧
    (nullify_unw false (fun p => p == 0) ⟨[some 1, some 1], none⟩).unw ≠
      [some 1, some 1] ∧
    (nullify_unw false (fun p => p == 0) ⟨[some 1, some 1], none⟩).unw =
      [some 1, none] := by
  decide

/-- **C8 (amended)**: when nullification is enabled *and the backup is not
skipped* (`save_ori_unw`, the default), the original raster is copied
verbatim into the `.unw.ori` slot before the modifying write; whenever a
preserved original exists it is kept and read as the authoritative
un-nullified source regardless of the backup flag; and over a
duplicate-free edge list each edge's raster is written at most once per run,
after classification is final. -/
theorem nullify_backup_invariants (saveOri : Bool) (mask : Nat → Bool)
    (f : EdgeFiles) :
    (f.ori = none → (nullify_unw true mask f).ori = some f.unw ∧
      (nullify_unw true mask f).unw = applyMask mask f.unw) ∧
    (∀ o, f.ori = some o → (nullify_unw saveOri mask f).ori = some o ∧
      (nullify_unw saveOri mask f).unw = applyMask mask o) ∧
    (∀ (P : Nat) (maskOf : Nat → Nat → Bool) (edges : List Nat)
        (files : Nat → EdgeFiles) (e : Nat), edges.Nodup → e ∈ edges →
      (runNullify saveOri P maskOf edges files).1 e =
        if isMixed P (maskOf e) then
          nullify_unw saveOri (maskOf e) (files e)
        else files e) := by
  refine ⟨?_, ?_, ?_⟩
  · intro h
    rw [nullify_unw, h]
    exact ⟨rfl, rfl⟩
  · intro o h
    rcases saveOri with _ | _ <;> rw [nullify_unw, h] <;> exact ⟨rfl, rfl⟩
  · intro P maskOf edges files e hnd he
    exact runNullify_once saveOri P maskOf edges files e hnd he

/-- A value as carried through the Python option layer: a number or a raw
option string. -/
inductive PyVal where
  | num (q : ℚ)
  | str (s : String)
deriving DecidableEq, Repr

/-- The nullification threshold after option parsing: the default is `np.pi`
(line 172); `--nullify_threshold a` stores the *raw option string* without
conversion (`nullify_threshold = a`, lines 217-218 — unlike `-l`, which is
converted with `float(a)`, or `--n_para` with `int(a)`). -/
def parseNullifyThreshold (opts : List (String × String)) : PyVal :=
  opts.foldl
    (fun t oa => if oa.1 = "--nullify_threshold" then .str oa.2 else t)
    (.num npPi)

/-- The support comparison `np.abs(loop_ph) < nullify_threshold` (line 1307)
as typed by NumPy: defined for a numeric threshold; ordering a float raster
against a `str` raises `TypeError`, so a string threshold yields an error,
never a numeric comparison with the string's value. -/
def supportTest (thr : PyVal) (r : ℚ) : Except String Bool :=
  match thr with
  | .num q => .ok (decide (|r| < q))
  | .str _ => .error "TypeError: ufunc less does not accept float and str"

/-- **C9**: the nullification threshold defaults to π (`np.pi`, line 172)
and with the default the pass-4 support test is exactly `|residual| < π`;
but a threshold supplied as a run parameter is kept as its raw string —
lines 217-218 never apply `float()` — so the support test is *not* computed
against the supplied numeric value (the NumPy comparison of a float raster
with a `str` fails rather than comparing numerically).  The claim's "using
the numeric value ... including when the threshold is supplied as a run
parameter" is contradicted by the code. -/
theorem nullify_threshold_string_bug :
    parseNullifyThreshold [] = PyVal.num npPi ∧
    (∀ r : ℚ, supportTest (parseNullifyThreshold []) r =
      .ok (decide (|r| < npPi))) ∧
    parseNullifyThreshold [("--nullify_threshold", "1.0")] =
      PyVal.str "1.0" ∧
    (∀ r : ℚ,
      supportTest (parseNullifyThreshold [("--nullify_threshold", "1.0")]) r =
        .error "TypeError: ufunc less does not accept float and str") :=
  ⟨rfl, fun _ => rfl, rfl, fun _ => rfl⟩

/-- The local variables of `main` that are assigned only on the
`n_loop > 0` paths, as far as the zero-loop control flow needs them:
`_n_para` (line 342) and `loop_ph_rms_points_masked` (lines 454-455).
`none` models "never assigned" (reading it raises `UnboundLocalError`). -/
structure MainLocals where
  nPara1 : Option Nat
  maskedRms : Option Unit
deriving DecidableEq, Repr

/-- The zero-loop control flow of `main` (lines 331-606), modelling local
variable definedness: with `n_loop == 0` the script only prints a warning
and sets `no_loop_ifg = ifgdates`, `bad_ifg = []` (lines 331-334), skipping
the blocks that assign `_n_para` (line 342) and
`loop_ph_rms_points_masked` (lines 454-455); it then *unconditionally*
reaches reference selection — which reads `loop_ph_rms_points_masked`
(line 556) unless a pre-existing `120ref.txt` supplies the area
(lines 457-462) — and the pass-3 banner, which reads `_n_para` (line 602).
Reading an unassigned local raises `UnboundLocalError`.  The result on
success is `(no_loop_ifg, warned)`. -/
def mainFlowZeroLoop (nLoop : Nat) (edges : List Nat) (has120ref : Bool) :
    Except String (List Nat × Bool) :=
  let warned := nLoop = 0
  let noLoop := if nLoop = 0 then edges else []
  let locs : MainLocals :=
    if nLoop = 0 then ⟨none, none⟩ else ⟨some 1, some ()⟩
  if has120ref then
    match locs.nPara1 with
    | none => .error "UnboundLocalError: _n_para"
    | some _ => .ok (noLoop, decide warned)
  else
    match locs.maskedRms with
    | none => .error "UnboundLocalError: loop_ph_rms_points_masked"
    | some _ =>
      match locs.nPara1 with
      | none => .error "UnboundLocalError: _n_para"
      | some _ => .ok (noLoop, decide warned)

/-- **C6**: with zero loops the run does *not* complete: although the code
prints its warning and marks every edge no-loop (lines 331-334, intending
the non-fatal path the claim describes), execution falls through to
reference selection and the pass-3 banner, where the locals
`loop_ph_rms_points_masked` (line 556) and `_n_para` (line 602) were never
assigned — the run dies with `UnboundLocalError` whether or not a
`120ref.txt` short-circuits the selection. -/
theorem zeroLoop_crash :
    mainFlowZeroLoop 0 [7] false =
      .error "UnboundLocalError: loop_ph_rms_points_masked" ∧
    mainFlowZeroLoop 0 [7] true = .error "UnboundLocalError: _n_para" ∧
    (∀ edges b, ∃ s, mainFlowZeroLoop 0 edges b = .error s) :=
  ⟨rfl, rfl, fun edges b => by
    rcases b with _ | _
    · exact ⟨"UnboundLocalError: loop_ph_rms_points_masked", rfl⟩
    · exact ⟨"UnboundLocalError: _n_para", rfl⟩⟩

/-- Inputs of the reference-area selection (lines 445-458, 554-561): the
valid-edge-count raster `n_unw` (lines 409-422), the per-pixel bad-loop
count `ns_bad_loop` (line 440, a sum of indicator rasters, hence a natural
number per pixel) and the per-pixel closure RMS `loop_ph_rms_points`
(line 443, NaN where no loop covers the pixel), all flattened row-major
with the given width. -/
structure RefInput where
  width : Nat
  nUnw : List Nat
  nsBad : List Nat
  rms : List (Option ℚ)

/-- `np.nanmax` of a nonnegative integer raster (attained on any nonempty
list). -/
def gridMax (l : List Nat) : Nat := l.foldl Nat.max 0

/-- `np.nanmin` of a nonnegative integer raster. -/
def gridMin (l : List Nat) : Nat :=
  match l with
  | [] => 0
  | x :: xs => xs.foldl Nat.min x

/-- `mask1 * mask2` at flat pixel `i`: maximal valid-edge count (line 446)
and bad-loop count equal to the current minimum `m` (line 449). -/
def survivor (inp : RefInput) (m i : Nat) : Bool :=
  (inp.nUnw.getD i 0 == gridMax inp.nUnw) && (inp.nsBad.getD i 0 == m)

/-- The negation of the `np.all(~(mask1 * mask2))` check of line 450. -/
def anySurvivor (inp : RefInput) (m : Nat) : Bool :=
  (List.range inp.nUnw.length).any (survivor inp m)

/-- The `while True` escalation loop of lines 448-453: if the intersection
is empty the minimum is incremented by exactly one and the mask rebuilt.
The fuel argument only bounds the iteration for totality; with enough fuel
it is never exhausted (`escalate_found`). -/
def escalate (inp : RefInput) : Nat → Nat → Nat
  | 0, m => m
  | fuel + 1, m => if anySurvivor inp m then m else escalate inp fuel (m + 1)

/-- The final bad-loop-count threshold: the loop starts from
`np.nanmin(ns_bad_loop)` (line 447). -/
def escalatedMin (inp : RefInput) : Nat :=
  escalate inp (gridMax inp.nsBad + 1) (gridMin inp.nsBad)

/-- `loop_ph_rms_points * mask1 * mask2` followed by
`masked[masked == 0] = np.nan` (lines 454-455): a pixel outside the masks
becomes 0 and then NaN; a surviving pixel keeps its RMS unless that RMS is
NaN or exactly 0, in which case it too becomes NaN. -/
def maskedRms (inp : RefInput) (i : Nat) : Option ℚ :=
  if survivor inp (escalatedMin inp) i then
    match inp.rms.getD i none with
    | none => none
    | some r => if r = 0 then none else some r
  else none

/-- One step of a NaN-aware running minimum: NaN values are skipped. -/
def nanminStep (f : Nat → Option ℚ) (acc : Option ℚ) (i : Nat) : Option ℚ :=
  match acc, f i with
  | none, v => v
  | some a, none => some a
  | some a, some b => some (min a b)

/-- `np.nanmin` over an optional-valued pixel function: `none` when every
pixel is NaN. -/
def optMin (L : Nat) (f : Nat → Option ℚ) : Option ℚ :=
  (List.range L).foldl (nanminStep f) none

/-- The first flat index attaining the minimum — `np.where` enumerates in
row-major order and lines 557-558 take the first entry. -/
def firstArgmin (L : Nat) (f : Nat → Option ℚ) : Option Nat :=
  match optMin L f with
  | none => none
  | some m => (List.range L).find? (fun i => f i == some m)

/-- The reference-pixel selection of lines 445-458 and 554-561, returning
the `(refy1, refx1)` of the 1×1 reference area (`refy2 = refy1 + 1`,
`refx2 = refx1 + 1`, lines 560-561); `none` models the `IndexError` crash
of line 557 when every masked value is NaN. -/
def refSelect (inp : RefInput) : Option (Nat × Nat) :=
  (firstArgmin inp.nUnw.length (maskedRms inp)).map
    (fun i => (i / inp.width, i % inp.width))

/-- The claim's wording of the final step, for comparison with `refSelect`:
among the surviving pixels (maximal valid-edge count, escalated minimal
bad-loop count) take the first pixel in row-major scan order attaining the
minimum closure RMS — with no exclusion of zero-RMS survivors. -/
def specMaskedRms (inp : RefInput) (i : Nat) : Option ℚ :=
  if survivor inp (escalatedMin inp) i then inp.rms.getD i none else none

/-- The selection as the claim states it (see `specMaskedRms`). -/
def specRefSelect (inp : RefInput) : Option (Nat × Nat) :=
  (firstArgmin inp.nUnw.length (specMaskedRms inp)).map
    (fun i => (i / inp.width, i % inp.width))

/-- **C2 (counterexample)**: on a 1×2 raster whose two pixels both attain
the maximal valid-edge count and the minimal bad-loop count, with closure
RMS 0 at pixel (0,0) and 1 at pixel (0,1), the code returns (0,1): the
masking trick `masked[masked == 0] = np.nan` (line 455) silently discards
the zero-RMS survivor, so the returned pixel is *not* the first scan-order
pixel of minimum RMS among the survivors, which the claim says is (0,0). -/
theorem refSelect_zero_rms_cex :
    refSelect ⟨2, [5, 5], [0, 0], [some 0, some 1]⟩ = some (0, 1) ∧
    specRefSelect ⟨2, [5, 5], [0, 0], [some 0, some 1]⟩ = some (0, 0) ∧
    refSelect ⟨2, [5, 5], [0, 0], [some 0, some 1]⟩ ≠
      specRefSelect ⟨2, [5, 5], [0, 0], [some 0, some 1]⟩ := by
  refine ⟨?_, ?_, ?_⟩ <;> decide

/-- A `Nat.max` fold either keeps its seed or lands on a list element. -/
lemma foldl_max_mem (xs : List Nat) (a : Nat) :
    xs.foldl Nat.max a = a ∨ xs.foldl Nat.max a ∈ xs := by
  induction xs generalizing a with
  | nil => exact Or.inl rfl
  | cons x xs ih =>
    rw [List.foldl_cons]
    rcases ih (Nat.max a x) with h | h
    · rcases Nat.le_total a x with hax | hax
      · refine Or.inr ?_
        have hx : Nat.max a x = x := Nat.max_eq_right hax
        rw [h, hx]
        exact List.mem_cons_self x xs
      · have hx : Nat.max a x = a := Nat.max_eq_left hax
        exact Or.inl (h.trans hx)
    · exact Or.inr (List.mem_cons_of_mem x h)

/-- Every element is bounded by a `Nat.max` fold over any seed. -/
lemma le_foldl_max (xs : List Nat) (a : Nat) :
    a ≤ xs.foldl Nat.max a ∧ ∀ v ∈ xs, v ≤ xs.foldl Nat.max a := by
  induction xs generalizing a with
  | nil => exact ⟨le_refl a, by simp⟩
  | cons x xs ih =>
    rw [List.foldl_cons]
    obtain ⟨h1, h2⟩ := ih (Nat.max a x)
    refine ⟨le_trans (Nat.le_max_left a x) h1, ?_⟩
    intro v hv
    rcases List.mem_cons.mp hv with rfl | hv
    · exact le_trans (Nat.le_max_right a v) h1
    · exact h2 v hv

/-- The maximum of a nonempty raster is attained. -/
lemma gridMax_attained (l : List Nat) (hne : l ≠ []) :
    ∃ i, i < l.length ∧ l.getD i 0 = gridMax l := by
  have hmem : gridMax l ∈ l := by
    rcases foldl_max_mem l 0 with h | h
    · rcases l with _ | ⟨x, xs⟩
      · exact absurd rfl hne
      · have hx : x ≤ gridMax (x :: xs) :=
          (le_foldl_max (x :: xs) 0).2 x (List.mem_cons_self x xs)
        have hz : gridMax (x :: xs) = 0 := h
        have hx0 : x = 0 := by omega
        rw [hz, ← hx0]
        exact List.mem_cons_self x xs
    · exact h
  obtain ⟨i, hi, hg⟩ := List.mem_iff_getElem.mp hmem
  refine ⟨i, hi, ?_⟩
  rw [List.getD_eq_getElem?_getD, List.getElem?_eq_getElem hi, hg]
  rfl

/-- The minimum of a raster bounds every entry. -/
lemma gridMin_le_getD (l : List Nat) (i : Nat) (hi : i < l.length) :
    gridMin l ≤ l.getD i 0 := by
  have key : ∀ (xs : List Nat) (a : Nat),
      xs.foldl Nat.min a ≤ a ∧ ∀ v ∈ xs, xs.foldl Nat.min a ≤ v := by
    intro xs
    induction xs with
    | nil => exact fun a => ⟨le_refl a, by simp⟩
    | cons x xs ih =>
      intro a
      rw [List.foldl_cons]
      obtain ⟨h1, h2⟩ := ih (Nat.min a x)
      refine ⟨le_trans h1 (Nat.min_le_left a x), ?_⟩
      intro v hv
      rcases List.mem_cons.mp hv with rfl | hv
      · exact le_trans h1 (Nat.min_le_right a v)
      · exact h2 v hv
  rcases l with _ | ⟨x, xs⟩
  · cases hi
  · have hmem : (x :: xs).getD i 0 ∈ x :: xs := by
      rw [List.getD_eq_getElem?_getD, List.getElem?_eq_getElem hi]
      exact List.getElem_mem hi
    rcases List.mem_cons.mp hmem with hx | hx
    · rw [gridMin, hx]
      exact (key xs x).1
    · rw [gridMin]
      exact (key xs x).2 _ hx

/-- Every entry is bounded by the raster maximum. -/
lemma getD_le_gridMax (l : List Nat) (i : Nat) (hi : i < l.length) :
    l.getD i 0 ≤ gridMax l := by
  have hmem : l.getD i 0 ∈ l := by
    rw [List.getD_eq_getElem?_getD, List.getElem?_eq_getElem hi]
    exact List.getElem_mem hi
  exact (le_foldl_max l 0).2 _ hmem

/-- Given enough fuel the escalation loop stops at the *least* feasible
bad-loop threshold at or above its starting value: the result has a
survivor, and every value from the start up to it has none. -/
lemma escalate_found (inp : RefInput) (fuel m : Nat)
    (h : ∃ k, k < fuel ∧ anySurvivor inp (m + k) = true) :
    anySurvivor inp (escalate inp fuel m) = true ∧
    m ≤ escalate inp fuel m ∧
    ∀ m', m ≤ m' → m' < escalate inp fuel m → anySurvivor inp m' = false := by
  induction fuel generalizing m with
  | zero =>
    obtain ⟨k, hk, _⟩ := h
    omega
  | succ n ih =>
    rw [escalate]
    by_cases hm : anySurvivor inp m = true
    · rw [if_pos hm]
      exact ⟨hm, le_refl m, fun m' h1 h2 => absurd (lt_of_le_of_lt h1 h2)
        (lt_irrefl m)⟩
    · rw [if_neg hm]
      have h' : ∃ k, k < n ∧ anySurvivor inp (m + 1 + k) = true := by
        obtain ⟨k, hk, hsk⟩ := h
        rcases k with _ | k'
        · exact absurd hsk hm
        · refine ⟨k', by omega, ?_⟩
          have : m + 1 + k' = m + (k' + 1) := by omega
          rw [this]
          exact hsk
      obtain ⟨h1, h2, h3⟩ := ih (m + 1) h'
      refine ⟨h1, by omega, ?_⟩
      intro m' hm1 hm2
      rcases Nat.eq_or_lt_of_le hm1 with rfl | hlt
      · exact Bool.not_eq_true _ ▸ (by simpa using hm)
      · exact h3 m' (by omega) hm2

/-- With the rasters the same length and nonempty, a survivor exists within
`gridMax nsBad + 1` escalation steps of the starting minimum. -/
lemma exists_survivor_fuel (inp : RefInput) (hne : inp.nUnw ≠ [])
    (hlen : inp.nsBad.length = inp.nUnw.length) :
    ∃ k, k < gridMax inp.nsBad + 1 ∧
      anySurvivor inp (gridMin inp.nsBad + k) = true := by
  obtain ⟨i, hi, hg⟩ := gridMax_attained inp.nUnw hne
  have hib : i < inp.nsBad.length := by omega
  have h1 := gridMin_le_getD inp.nsBad i hib
  have h2 := getD_le_gridMax inp.nsBad i hib
  refine ⟨inp.nsBad.getD i 0 - gridMin inp.nsBad, by omega, ?_⟩
  have hv : gridMin inp.nsBad + (inp.nsBad.getD i 0 - gridMin inp.nsBad) =
      inp.nsBad.getD i 0 := by omega
  rw [hv, anySurvivor, List.any_eq_true]
  refine ⟨i, List.mem_range.mpr hi, ?_⟩
  rw [survivor, Bool.and_eq_true, beq_iff_eq, beq_iff_eq]
  exact ⟨hg, rfl⟩

/-- The step from a NaN accumulator returns the pixel value. -/
lemma nanminStep_none (f : Nat → Option ℚ) (i : Nat) :
    nanminStep f none i = f i := by
  rcases h : f i with _ | b <;> simp [nanminStep, h]

/-- The step skips a NaN pixel. -/
lemma nanminStep_some_none (f : Nat → Option ℚ) (i : Nat) (a : ℚ)
    (h : f i = none) : nanminStep f (some a) i = some a := by
  simp [nanminStep, h]

/-- The step takes the minimum with a valid pixel. -/
lemma nanminStep_some_some (f : Nat → Option ℚ) (i : Nat) (a b : ℚ)
    (h : f i = some b) : nanminStep f (some a) i = some (min a b) := by
  simp [nanminStep, h]

/-- A NaN-aware minimum fold bounds the seed and every defined value. -/
lemma optMin_fold_le (f : Nat → Option ℚ) (xs : List Nat) (acc : Option ℚ)
    (m : ℚ) (h : xs.foldl (nanminStep f) acc = some m) :
    (∀ a, acc = some a → m ≤ a) ∧ ∀ j ∈ xs, ∀ r, f j = some r → m ≤ r := by
  induction xs generalizing acc with
  | nil =>
    rw [List.foldl_nil] at h
    refine ⟨?_, by simp⟩
    intro a ha
    rw [ha] at h
    injection h with h'
    exact le_of_eq h'.symm
  | cons x xs ih =>
    rw [List.foldl_cons] at h
    obtain ⟨ha, hxs⟩ := ih _ h
    constructor
    · intro a hacc
      subst hacc
      rcases hfx : f x with _ | b
      · exact ha a (nanminStep_some_none f x a hfx)
      · exact le_trans (ha (min a b) (nanminStep_some_some f x a b hfx))
          (min_le_left a b)
    · intro j hj r hr
      rcases List.mem_cons.mp hj with rfl | hj
      · rcases hacc : acc with _ | a
        · subst hacc
          exact ha r ((nanminStep_none f j).trans hr)
        · subst hacc
          exact le_trans (ha (min a r) (nanminStep_some_some f j a r hr))
            (min_le_right a r)
      · exact hxs j hj r hr

/-- A NaN-aware minimum fold lands on the seed or on a defined value. -/
lemma optMin_fold_mem (f : Nat → Option ℚ) (xs : List Nat) (acc : Option ℚ)
    (m : ℚ) (h : xs.foldl (nanminStep f) acc = some m) :
    acc = some m ∨ ∃ j ∈ xs, f j = some m := by
  induction xs generalizing acc with
  | nil => exact Or.inl h
  | cons x xs ih =>
    rw [List.foldl_cons] at h
    rcases ih _ h with hacc | ⟨j, hj, hf⟩
    · rcases hx : acc with _ | a
      · subst hx
        rw [nanminStep_none] at hacc
        exact Or.inr ⟨x, List.mem_cons_self x xs, hacc⟩
      · subst hx
        rcases hfx : f x with _ | b
        · rw [nanminStep_some_none f x a hfx] at hacc
          exact Or.inl hacc
        · rw [nanminStep_some_some f x a b hfx] at hacc
          injection hacc with hm
          rcases min_choice a b with hc | hc
          · exact Or.inl (by rw [← hm, hc])
          · exact Or.inr ⟨x, List.mem_cons_self x xs, by rw [hfx, ← hm, hc]⟩
    · exact Or.inr ⟨j, List.mem_cons_of_mem x hj, hf⟩

/-- `List.find?` over `List.range` returns the numerically first index
satisfying the predicate. -/
lemma find?_range_first (L : Nat) (p : Nat → Bool) (i : Nat)
    (h : (List.range L).find? p = some i) :
    i < L ∧ p i = true ∧ ∀ j < i, p j = false := by
  have hp : p i = true := List.find?_some h
  have hiL : i < L := List.mem_range.mp (List.mem_of_find?_eq_some h)
  refine ⟨hiL, hp, ?_⟩
  have key : ∀ (xs : List Nat), xs.Pairwise (· < ·) → xs.find? p = some i →
      ∀ j ∈ xs, j < i → p j = false := by
    intro xs
    induction xs with
    | nil => intro _ _ j hj; cases hj
    | cons x xs ih =>
      intro hpw hfind j hj hji
      rw [List.find?_cons] at hfind
      rcases hpx : p x with _ | _
      · rw [hpx] at hfind
        rcases List.mem_cons.mp hj with rfl | hj
        · exact hpx
        · exact ih (List.Pairwise.sublist (List.sublist_cons_self x xs) hpw)
            hfind j hj hji
      · rw [hpx] at hfind
        injection hfind with hxi
        rcases List.mem_cons.mp hj with rfl | hj
        · omega
        · have := (List.pairwise_cons.mp hpw).1 j hj
          omega
  intro j hji
  exact key (List.range L) (List.pairwise_lt_range L) h j
    (List.mem_range.mpr (by omega)) hji

/-- A defined masked RMS value means: the pixel survives both masks and its
RMS is that nonzero value. -/
lemma maskedRms_some (inp : RefInput) (i : Nat) (m : ℚ)
    (h : maskedRms inp i = some m) :
    survivor inp (escalatedMin inp) i = true ∧
    inp.rms.getD i none = some m ∧ m ≠ 0 := by
  rw [maskedRms] at h
  split at h
  next hs =>
    split at h
    next heq => cases h
    next r heq =>
      split at h
      next hz => cases h
      next hz =>
        injection h with hm
        subst hm
        exact ⟨hs, heq, hz⟩
  next hs => cases h

/-- **C2 (amended)**: the selection is the stated deterministic function of
the three rasters except that the final minimisation runs over the
survivors with *defined, nonzero* RMS (`masked[masked == 0] = np.nan`,
line 455, also discards zero-RMS survivors): the escalation loop stops at
the least bad-loop count at or above the raster minimum that intersects the
max-coverage mask, stepping by exactly one; the returned pixel is a
survivor and the first pixel in row-major scan order attaining the minimum
masked RMS; and the selection is deterministic (a pure function of its
inputs). -/
theorem refSelect_first_min (inp : RefInput) (y x : Nat)
    (hne : inp.nUnw ≠ []) (hlen : inp.nsBad.length = inp.nUnw.length)
    (hsel : refSelect inp = some (y, x)) :
    (anySurvivor inp (escalatedMin inp) = true ∧
      gridMin inp.nsBad ≤ escalatedMin inp ∧
      ∀ m', gridMin inp.nsBad ≤ m' → m' < escalatedMin inp →
        anySurvivor inp m' = false) ∧
    (∃ i m, y = i / inp.width ∧ x = i % inp.width ∧ i < inp.nUnw.length ∧
      survivor inp (escalatedMin inp) i = true ∧
      maskedRms inp i = some m ∧ m ≠ 0 ∧
      (∀ j, j < inp.nUnw.length → ∀ r, maskedRms inp j = some r → m ≤ r) ∧
      ∀ j, j < i → maskedRms inp j ≠ some m) ∧
    refSelect inp = refSelect inp := by
  refine ⟨?_, ?_, rfl⟩
  · rw [escalatedMin]
    exact escalate_found inp _ _ (exists_survivor_fuel inp hne hlen)
  · rw [refSelect] at hsel
    rcases hfa : firstArgmin inp.nUnw.length (maskedRms inp) with _ | i
    · rw [hfa] at hsel
      cases hsel
    · rw [hfa] at hsel
      simp only [Option.map_some'] at hsel
      injection hsel with hyx
      obtain ⟨hy, hx⟩ := Prod.mk.injEq .. ▸ hyx
      rw [firstArgmin] at hfa
      rcases hmin : optMin inp.nUnw.length (maskedRms inp) with _ | m
      · rw [hmin] at hfa
        cases hfa
      · rw [hmin] at hfa
        obtain ⟨hiL, hpi, hfirst⟩ := find?_range_first _ _ _ hfa
        have hfi : maskedRms inp i = some m := by simpa using hpi
        obtain ⟨hsurv, _, hmz⟩ := maskedRms_some inp i m hfi
        have hle := (optMin_fold_le (maskedRms inp)
          (List.range inp.nUnw.length) none m (by rw [optMin] at hmin; exact hmin)).2
        refine ⟨i, m, hy.symm, hx.symm, hiL, hsurv, hfi, hmz, ?_, ?_⟩
        · intro j hj r hr
          exact hle j (List.mem_range.mpr hj) r hr
        · intro j hji hcon
          have hfj := hfirst j hji
          rw [hcon] at hfj
          simp at hfj

/-- The 1×2 instance used for C2. -/
def refCexInput : RefInput := ⟨2, [5, 5], [0, 0], [some 0, some 1]⟩

/-- Witness for `refSelect_first_min` on the 1×2 instance (the selected
pixel is (0,1)). -/
theorem refSelect_first_min_witness :
    (anySurvivor refCexInput (escalatedMin refCexInput) = true ∧
      gridMin refCexInput.nsBad ≤ escalatedMin refCexInput ∧
      ∀ m', gridMin refCexInput.nsBad ≤ m' →
        m' < escalatedMin refCexInput → anySurvivor refCexInput m' = false) ∧
    (∃ i m, (0 : Nat) = i / refCexInput.width ∧
      (1 : Nat) = i % refCexInput.width ∧ i < refCexInput.nUnw.length ∧
      survivor refCexInput (escalatedMin refCexInput) i = true ∧
      maskedRms refCexInput i = some m ∧ m ≠ 0 ∧
      (∀ j, j < refCexInput.nUnw.length → ∀ r,
        maskedRms refCexInput j = some r → m ≤ r) ∧
      ∀ j, j < i → maskedRms refCexInput j ≠ some m) ∧
    refSelect refCexInput = refSelect refCexInput :=
  refSelect_first_min refCexInput 0 1 (by decide) (by decide) (by decide)
